import Mathlib

/-!
Verification of the expense-settlement engine of the Traveller dashboard
(function calculate_settlement in app.py, lines 167-204).

The engine is embedded shallowly: monetary amounts are rationals, the
Python dict keyed by companion name is an association list whose keys are
the deduplicated roster, and the two passes of the source (accumulation
over expenses, then per-companion rounding) are folds.  The rounding
primitive of the runtime (round(x, 2) on floats) is modelled as
round-half-to-even on rationals scaled by 100, which agrees with the
runtime on every dyadic input used below.
-/

/-- Per-companion settlement record: the dict value
{paid: ..., owed: ..., net: ...} of the source. -/
structure Summ where
  paid : ℚ
  owed : ℚ
  net  : ℚ
deriving Repr, DecidableEq

/-- One expense record, with the three fields the engine reads:
expense.get, amount and splits. -/
structure Expense where
  payer  : String
  amount : ℚ
  splits : List String
deriving Repr, DecidableEq

/-- Key list of an association-list map. -/
def keys (m : List (String × Summ)) : List String :=
  m.map Prod.fst

/-- Mutation of the dict entry at key k, as the source does with
settlement_summary[k][field] += delta.  Entries with other keys are
untouched; an absent key leaves the map unchanged. -/
def updateEntry (m : List (String × Summ)) (k : String) (f : Summ → Summ) :
    List (String × Summ) :=
  m.map fun p => if p.1 = k then (p.1, f p.2) else p

/-- Dict lookup settlement_summary[k], partial as in the source. -/
def lookupS (m : List (String × Summ)) (k : String) : Option Summ :=
  (m.find? fun p => decide (p.1 = k)).map Prod.snd

/-- The dict comprehension of line 172:
\x7bcomp: \x7b'paid': 0.0, 'owed': 0.0, 'net': 0.0\x7d for comp in companions\x7d.
A Python dict deduplicates repeated keys; all values are equal, so the
map is the deduplicated roster paired with the zero record. -/
def initSummary (companions : List String) : List (String × Summ) :=
  companions.dedup.map fun c => (c, ⟨0, 0, 0⟩)

/-- Lines 179-181, total side: total_paid_all is incremented only inside
the membership test on the payer. -/
def payTotal (st : ℚ × List (String × Summ)) (e : Expense) : ℚ :=
  if e.payer ∈ keys st.2 then st.1 + e.amount else st.1

/-- Lines 179-180, map side: the payer record accumulates the amount when
the payer is a key of the summary. -/
def payMap (st : ℚ × List (String × Summ)) (e : Expense) :
    List (String × Summ) :=
  if e.payer ∈ keys st.2 then
    updateEntry st.2 e.payer fun s => { s with paid := s.paid + e.amount }
  else st.2

/-- Lines 189-191, body of the loop over splits: a split member found in
the summary accumulates one per-person share. -/
def owedStep (share : ℚ) (acc : List (String × Summ)) (c : String) :
    List (String × Summ) :=
  if c ∈ keys acc then
    updateEntry acc c fun s => { s with owed := s.owed + share }
  else acc

/-- Lines 183-191: when the splits list is non-empty the per-person share
is amount divided by the length of splits, and the loop over splits runs;
an empty splits list leaves the summary untouched. -/
def owedPhase (e : Expense) (m : List (String × Summ)) :
    List (String × Summ) :=
  if 0 < e.splits.length then
    e.splits.foldl (owedStep (e.amount / (e.splits.length : ℚ))) m
  else m

/-- The body of the loop over expenses, lines 175-191: state is the pair
(total_paid_all, settlement_summary). -/
def applyExpense (st : ℚ × List (String × Summ)) (e : Expense) :
    ℚ × List (String × Summ) :=
  (payTotal st e, owedPhase e (payMap st e))

/-- Round-half-to-even to an integer, as the runtime rounding primitive
round applies to the (exact binary) value it is given. -/
def roundHalfEven (x : ℚ) : ℤ :=
  if x - ⌊x⌋ < 1/2 then ⌊x⌋
  else if 1/2 < x - ⌊x⌋ then ⌊x⌋ + 1
  else if ⌊x⌋ % 2 = 0 then ⌊x⌋ else ⌊x⌋ + 1

/-- The rounding round(x, 2) of lines 200-202: two decimal places. -/
def round2 (x : ℚ) : ℚ :=
  (roundHalfEven (x * 100) : ℚ) / 100

/-- The body of the final loop, lines 194-202: net is set from the
accumulated paid and owed, then all three fields are rounded in place. -/
def finalizeOne (m : List (String × Summ)) (c : String) :
    List (String × Summ) :=
  updateEntry m c fun s =>
    let net := s.paid - s.owed
    { paid := round2 s.paid, owed := round2 s.owed, net := round2 net }

/-- The accumulation pass alone (state after line 191), before rounding. -/
def rawSettlement (companions : List String) (expenses : List Expense) :
    ℚ × List (String × Summ) :=
  expenses.foldl applyExpense (0, initSummary companions)

/-- calculate_settlement, app.py lines 167-204: returns
(total_paid_all, settlement_summary). -/
def calculate_settlement (companions : List String) (expenses : List Expense) :
    ℚ × List (String × Summ) :=
  let r := rawSettlement companions expenses
  (r.1, companions.foldl finalizeOne r.2)

/-- Sum of the amount fields of every record of a list. -/
def totalAmount (expenses : List Expense) : ℚ :=
  (expenses.map Expense.amount).sum

/-- Sum of the amount fields of the records whose payer is in the roster. -/
def rosterAmount (companions : List String) (expenses : List Expense) : ℚ :=
  ((expenses.filter fun e => decide (e.payer ∈ companions)).map
    Expense.amount).sum

/-- Sum of a projection of the values of the map. -/
def sumBy (m : List (String × Summ)) (f : Summ → ℚ) : ℚ :=
  (m.map fun p => f p.2).sum

/-- Sum of the net fields of the returned summary. -/
def netSum (m : List (String × Summ)) : ℚ :=
  sumBy m Summ.net

/-- Modelled from the spec: the standard half-up rounding to an integer
that the specification asserts the runtime primitive performs. -/
def roundHalfUp (x : ℚ) : ℤ :=
  ⌊x + 1/2⌋

/-- Modelled from the spec: half-up rounding to two decimal places. -/
def roundUp2 (x : ℚ) : ℚ :=
  (roundHalfUp (x * 100) : ℚ) / 100

/-- Projection of a dict lookup onto the paid field. -/
def paidLookup (m : List (String × Summ)) (c : String) : Option ℚ :=
  (lookupS m c).map Summ.paid

/-- Projection of a dict lookup onto the owed field. -/
def owedLookup (m : List (String × Summ)) (c : String) : Option ℚ :=
  (lookupS m c).map Summ.owed

/-- The amount the inner split loop adds to the owed field of companion c
while processing expense e: one per-person share per occurrence of c in
the splits list, and nothing when the splits list is empty. -/
def owedDelta (e : Expense) (c : String) : ℚ :=
  if 0 < e.splits.length then
    (e.splits.count c : ℚ) * (e.amount / (e.splits.length : ℚ))
  else 0

/-- The rounding transformation the final loop applies to one record. -/
def roundSumm (s : Summ) : Summ :=
  { paid := round2 s.paid, owed := round2 s.owed,
    net := round2 (s.paid - s.owed) }

section BasicLemmas

lemma keys_nil : keys [] = [] := rfl

lemma keys_cons (p : String × Summ) (m : List (String × Summ)) :
    keys (p :: m) = p.1 :: keys m := rfl

lemma lookupS_nil (c : String) : lookupS [] c = none := rfl

lemma lookupS_cons (p : String × Summ) (m : List (String × Summ))
    (c : String) :
    lookupS (p :: m) c = if p.1 = c then some p.2 else lookupS m c := by
  by_cases h : p.1 = c <;> simp [lookupS, List.find?_cons, h]

lemma updateEntry_nil (k : String) (f : Summ → Summ) :
    updateEntry [] k f = [] := rfl

lemma updateEntry_cons (p : String × Summ) (m : List (String × Summ))
    (k : String) (f : Summ → Summ) :
    updateEntry (p :: m) k f
      = (if p.1 = k then (p.1, f p.2) else p) :: updateEntry m k f := rfl

lemma keys_updateEntry (m : List (String × Summ)) (k : String)
    (f : Summ → Summ) : keys (updateEntry m k f) = keys m := by
  induction m with
  | nil => rfl
  | cons p m ih =>
    rw [updateEntry_cons, keys_cons, keys_cons, ih]
    by_cases h : p.1 = k <;> simp [h]

lemma updateEntry_of_not_mem {m : List (String × Summ)} {k : String}
    (f : Summ → Summ) (h : k ∉ keys m) : updateEntry m k f = m := by
  induction m with
  | nil => rfl
  | cons p m ih =>
    rw [keys_cons, List.mem_cons, not_or] at h
    rw [updateEntry_cons, if_neg (fun hc => h.1 hc.symm), ih h.2]

lemma lookupS_updateEntry_self (m : List (String × Summ)) (k : String)
    (f : Summ → Summ) :
    lookupS (updateEntry m k f) k = (lookupS m k).map f := by
  induction m with
  | nil => rfl
  | cons p m ih =>
    rw [updateEntry_cons]
    by_cases h : p.1 = k
    · rw [if_pos h, lookupS_cons, lookupS_cons, if_pos h, if_pos h]
      rfl
    · rw [if_neg h, lookupS_cons, lookupS_cons, if_neg h, if_neg h, ih]

lemma lookupS_updateEntry_ne (m : List (String × Summ)) {k c : String}
    (f : Summ → Summ) (h : c ≠ k) :
    lookupS (updateEntry m k f) c = lookupS m c := by
  induction m with
  | nil => rfl
  | cons p m ih =>
    rw [updateEntry_cons]
    by_cases hp : p.1 = k
    · have hpc : ¬ p.1 = c := fun hc => h (hc ▸ hp)
      rw [if_pos hp, lookupS_cons, lookupS_cons, if_neg hpc, if_neg hpc, ih]
    · by_cases hpc : p.1 = c
      · rw [if_neg hp, lookupS_cons, lookupS_cons, if_pos hpc, if_pos hpc]
      · rw [if_neg hp, lookupS_cons, lookupS_cons, if_neg hpc, if_neg hpc,
          ih]

lemma lookupS_isSome_of_mem {m : List (String × Summ)} {c : String}
    (h : c ∈ keys m) : (lookupS m c).isSome := by
  induction m with
  | nil => simp [keys] at h
  | cons p m ih =>
    rw [keys_cons, List.mem_cons] at h
    rw [lookupS_cons]
    by_cases hp : p.1 = c
    · rw [if_pos hp]; rfl
    · rw [if_neg hp]
      exact ih (h.resolve_left fun hc => hp hc.symm)

lemma lookupS_eq_none_of_not_mem {m : List (String × Summ)} {c : String}
    (h : c ∉ keys m) : lookupS m c = none := by
  induction m with
  | nil => rfl
  | cons p m ih =>
    rw [keys_cons, List.mem_cons, not_or] at h
    rw [lookupS_cons, if_neg (fun hc => h.1 hc.symm), ih h.2]

lemma keys_initSummary (companions : List String) :
    keys (initSummary companions) = companions.dedup := by
  have hcomp :
      (Prod.fst ∘ fun c : String => (c, (⟨0, 0, 0⟩ : Summ))) = id := rfl
  rw [keys, initSummary, List.map_map, hcomp, List.map_id]

lemma nodup_keys_initSummary (companions : List String) :
    (keys (initSummary companions)).Nodup := by
  rw [keys_initSummary]; exact companions.nodup_dedup

end BasicLemmas

section KeysInvariance

lemma keys_payMap (st : ℚ × List (String × Summ)) (e : Expense) :
    keys (payMap st e) = keys st.2 := by
  unfold payMap
  split
  · exact keys_updateEntry _ _ _
  · rfl

lemma keys_owedStep (share : ℚ) (acc : List (String × Summ)) (c : String) :
    keys (owedStep share acc c) = keys acc := by
  unfold owedStep
  split
  · exact keys_updateEntry _ _ _
  · rfl

lemma keys_owedFold (share : ℚ) (l : List String)
    (m : List (String × Summ)) :
    keys (l.foldl (owedStep share) m) = keys m := by
  induction l generalizing m with
  | nil => rfl
  | cons c l ih => rw [List.foldl_cons, ih, keys_owedStep]

lemma keys_owedPhase (e : Expense) (m : List (String × Summ)) :
    keys (owedPhase e m) = keys m := by
  unfold owedPhase
  split
  · exact keys_owedFold _ _ _
  · rfl

lemma keys_applyExpense (st : ℚ × List (String × Summ)) (e : Expense) :
    keys (applyExpense st e).2 = keys st.2 := by
  show keys (owedPhase e (payMap st e)) = keys st.2
  rw [keys_owedPhase, keys_payMap]

lemma keys_foldl_applyExpense (es : List Expense)
    (st : ℚ × List (String × Summ)) :
    keys (es.foldl applyExpense st).2 = keys st.2 := by
  induction es generalizing st with
  | nil => rfl
  | cons e es ih => rw [List.foldl_cons, ih, keys_applyExpense]

lemma keys_rawSettlement (companions : List String)
    (expenses : List Expense) :
    keys (rawSettlement companions expenses).2 = companions.dedup := by
  rw [rawSettlement, keys_foldl_applyExpense]
  exact keys_initSummary companions

lemma calculate_settlement_fst (companions : List String)
    (expenses : List Expense) :
    (calculate_settlement companions expenses).1
      = (rawSettlement companions expenses).1 := rfl

lemma calculate_settlement_snd (companions : List String)
    (expenses : List Expense) :
    (calculate_settlement companions expenses).2
      = companions.foldl finalizeOne
          (rawSettlement companions expenses).2 := rfl

end KeysInvariance

section LookupLemmas

lemma paidLookup_updateEntry (g : Summ → Summ)
    (hg : ∀ s, (g s).paid = s.paid) (m : List (String × Summ))
    (k c : String) :
    paidLookup (updateEntry m k g) c = paidLookup m c := by
  by_cases h : c = k
  · subst h
    rw [paidLookup, lookupS_updateEntry_self, paidLookup]
    cases lookupS m c with
    | none => rfl
    | some s => simp [hg]
  · rw [paidLookup, lookupS_updateEntry_ne _ _ h, paidLookup]

lemma owedLookup_updateEntry (g : Summ → Summ)
    (hg : ∀ s, (g s).owed = s.owed) (m : List (String × Summ))
    (k c : String) :
    owedLookup (updateEntry m k g) c = owedLookup m c := by
  by_cases h : c = k
  · subst h
    rw [owedLookup, lookupS_updateEntry_self, owedLookup]
    cases lookupS m c with
    | none => rfl
    | some s => simp [hg]
  · rw [owedLookup, lookupS_updateEntry_ne _ _ h, owedLookup]

lemma owedLookup_payMap (st : ℚ × List (String × Summ)) (e : Expense)
    (c : String) : owedLookup (payMap st e) c = owedLookup st.2 c := by
  unfold payMap
  split
  · apply owedLookup_updateEntry
    intro s
    rfl
  · rfl

lemma paidLookup_owedStep (share : ℚ) (acc : List (String × Summ))
    (d c : String) :
    paidLookup (owedStep share acc d) c = paidLookup acc c := by
  unfold owedStep
  split
  · apply paidLookup_updateEntry
    intro s
    rfl
  · rfl

lemma paidLookup_owedFold (share : ℚ) (l : List String)
    (m : List (String × Summ)) (c : String) :
    paidLookup (l.foldl (owedStep share) m) c = paidLookup m c := by
  induction l generalizing m with
  | nil => rfl
  | cons d l ih => rw [List.foldl_cons, ih, paidLookup_owedStep]

lemma paidLookup_owedPhase (e : Expense) (m : List (String × Summ))
    (c : String) : paidLookup (owedPhase e m) c = paidLookup m c := by
  unfold owedPhase
  split
  · exact paidLookup_owedFold _ _ _ _
  · rfl

lemma owedLookup_owedStep_self (share : ℚ) (acc : List (String × Summ))
    (c : String) (hc : c ∈ keys acc) :
    owedLookup (owedStep share acc c) c
      = (owedLookup acc c).map fun x => x + share := by
  rw [owedStep, if_pos hc, owedLookup, lookupS_updateEntry_self, owedLookup]
  cases lookupS acc c with
  | none => rfl
  | some s => rfl

lemma owedLookup_owedStep_ne (share : ℚ) (acc : List (String × Summ))
    {d c : String} (h : c ≠ d) :
    owedLookup (owedStep share acc d) c = owedLookup acc c := by
  unfold owedStep
  split
  · rw [owedLookup, lookupS_updateEntry_ne _ _ h, owedLookup]
  · rfl

lemma owedLookup_owedFold (share : ℚ) (l : List String)
    (m : List (String × Summ)) (c : String) :
    owedLookup (l.foldl (owedStep share) m) c
      = (owedLookup m c).map fun x => x + (l.count c : ℚ) * share := by
  induction l generalizing m with
  | nil =>
    cases h : owedLookup m c <;> simp [h]
  | cons d l ih =>
    rw [List.foldl_cons, ih]
    by_cases hdc : c = d
    · subst hdc
      have hcount : (c :: l).count c = l.count c + 1 := by
        rw [List.count_cons]; simp
      rw [hcount]
      by_cases hc : c ∈ keys m
      · rw [owedLookup_owedStep_self _ _ _ hc]
        cases owedLookup m c with
        | none => rfl
        | some x =>
          simp only [Option.map_some', Option.some.injEq]
          push_cast
          ring
      · have h0 : owedLookup m c = none := by
          rw [owedLookup, lookupS_eq_none_of_not_mem hc]
          rfl
        have h1 : owedLookup (owedStep share m c) c = none := by
          rw [owedLookup, lookupS_eq_none_of_not_mem]
          · rfl
          · rw [keys_owedStep]; exact hc
        rw [h0, h1]
        rfl
    · have hcount : (d :: l).count c = l.count c := by
        rw [List.count_cons]; simp [Ne.symm hdc]
      rw [owedLookup_owedStep_ne _ _ hdc, hcount]

lemma owedLookup_owedPhase (e : Expense) (m : List (String × Summ))
    (c : String) :
    owedLookup (owedPhase e m) c
      = (owedLookup m c).map fun x => x + owedDelta e c := by
  unfold owedPhase owedDelta
  split
  · rw [owedLookup_owedFold]
  · cases h : owedLookup m c <;> simp [h]

lemma owedLookup_applyExpense (st : ℚ × List (String × Summ)) (e : Expense)
    (c : String) :
    owedLookup (applyExpense st e).2 c
      = (owedLookup st.2 c).map fun x => x + owedDelta e c := by
  show owedLookup (owedPhase e (payMap st e)) c = _
  rw [owedLookup_owedPhase, owedLookup_payMap]

end LookupLemmas

section SumLemmas

lemma sumBy_nil (f : Summ → ℚ) : sumBy [] f = 0 := rfl

lemma sumBy_cons (p : String × Summ) (m : List (String × Summ))
    (f : Summ → ℚ) : sumBy (p :: m) f = f p.2 + sumBy m f := by
  simp [sumBy]

lemma sumBy_updateEntry_of_proj (g : Summ → Summ) (f : Summ → ℚ)
    (hfg : ∀ s, f (g s) = f s) (m : List (String × Summ)) (k : String) :
    sumBy (updateEntry m k g) f = sumBy m f := by
  induction m with
  | nil => rfl
  | cons p m ih =>
    rw [updateEntry_cons]
    by_cases h : p.1 = k
    · rw [if_pos h, sumBy_cons, sumBy_cons, ih, hfg]
    · rw [if_neg h, sumBy_cons, sumBy_cons, ih]

lemma sumBy_updateEntry_add (g : Summ → Summ) (f : Summ → ℚ) (d : ℚ)
    (hfg : ∀ s, f (g s) = f s + d) {m : List (String × Summ)} {k : String}
    (hnd : (keys m).Nodup) (hk : k ∈ keys m) :
    sumBy (updateEntry m k g) f = sumBy m f + d := by
  induction m with
  | nil => simp [keys] at hk
  | cons p m ih =>
    rw [keys_cons, List.nodup_cons] at hnd
    rw [keys_cons, List.mem_cons] at hk
    rw [updateEntry_cons]
    by_cases h : p.1 = k
    · rw [if_pos h, sumBy_cons, sumBy_cons, hfg,
        updateEntry_of_not_mem g (h ▸ hnd.1)]
      ring
    · rcases hk with hk | hk
      · exact absurd hk.symm h
      · rw [if_neg h, sumBy_cons, sumBy_cons, ih hnd.2 hk]
        ring

lemma sumBy_paid_payMap (st : ℚ × List (String × Summ)) (e : Expense)
    (hnd : (keys st.2).Nodup) :
    sumBy (payMap st e) Summ.paid
      = sumBy st.2 Summ.paid
        + (if e.payer ∈ keys st.2 then e.amount else 0) := by
  unfold payMap
  by_cases h : e.payer ∈ keys st.2
  · rw [if_pos h, if_pos h]
    exact sumBy_updateEntry_add _ _ _ (fun _ => rfl) hnd h
  · rw [if_neg h, if_neg h, add_zero]

lemma sumBy_paid_owedStep (share : ℚ) (acc : List (String × Summ))
    (c : String) :
    sumBy (owedStep share acc c) Summ.paid = sumBy acc Summ.paid := by
  unfold owedStep
  split
  · apply sumBy_updateEntry_of_proj
    intro s
    rfl
  · rfl

lemma sumBy_paid_owedFold (share : ℚ) (l : List String)
    (m : List (String × Summ)) :
    sumBy (l.foldl (owedStep share) m) Summ.paid
      = sumBy m Summ.paid := by
  induction l generalizing m with
  | nil => rfl
  | cons c l ih => rw [List.foldl_cons, ih, sumBy_paid_owedStep]

lemma sumBy_paid_owedPhase (e : Expense) (m : List (String × Summ)) :
    sumBy (owedPhase e m) Summ.paid = sumBy m Summ.paid := by
  unfold owedPhase
  split
  · exact sumBy_paid_owedFold _ _ _
  · rfl

lemma sumBy_paid_applyExpense (st : ℚ × List (String × Summ)) (e : Expense)
    (hnd : (keys st.2).Nodup) :
    sumBy (applyExpense st e).2 Summ.paid
      = sumBy st.2 Summ.paid
        + (if e.payer ∈ keys st.2 then e.amount else 0) := by
  show sumBy (owedPhase e (payMap st e)) Summ.paid = _
  rw [sumBy_paid_owedPhase, sumBy_paid_payMap st e hnd]

lemma foldl_applyExpense_fst (es : List Expense)
    (st : ℚ × List (String × Summ)) :
    (es.foldl applyExpense st).1
      = st.1 + ((es.filter fun e => decide (e.payer ∈ keys st.2)).map
          Expense.amount).sum := by
  induction es generalizing st with
  | nil => simp
  | cons e es ih =>
    rw [List.foldl_cons, ih]
    have h2 : keys (applyExpense st e).2 = keys st.2 :=
      keys_applyExpense st e
    simp only [h2]
    have h1 : (applyExpense st e).1 = payTotal st e := rfl
    rw [h1]
    unfold payTotal
    by_cases h : e.payer ∈ keys st.2
    · rw [if_pos h, List.filter_cons_of_pos (by simpa using h),
        List.map_cons, List.sum_cons]
      ring
    · rw [if_neg h, List.filter_cons_of_neg (by simpa using h)]

lemma foldl_applyExpense_sumPaid (es : List Expense)
    (st : ℚ × List (String × Summ)) (hnd : (keys st.2).Nodup) :
    sumBy (es.foldl applyExpense st).2 Summ.paid
      = sumBy st.2 Summ.paid
        + ((es.filter fun e => decide (e.payer ∈ keys st.2)).map
            Expense.amount).sum := by
  induction es generalizing st with
  | nil => simp
  | cons e es ih =>
    have h2 : keys (applyExpense st e).2 = keys st.2 :=
      keys_applyExpense st e
    have hnd2 : (keys (applyExpense st e).2).Nodup := by rw [h2]; exact hnd
    rw [List.foldl_cons, ih _ hnd2]
    simp only [h2]
    rw [sumBy_paid_applyExpense st e hnd]
    by_cases h : e.payer ∈ keys st.2
    · rw [if_pos h, List.filter_cons_of_pos (by simpa using h),
        List.map_cons, List.sum_cons]
      ring
    · rw [if_neg h, List.filter_cons_of_neg (by simpa using h)]
      ring

lemma sumBy_owed_payMap (st : ℚ × List (String × Summ)) (e : Expense) :
    sumBy (payMap st e) Summ.owed = sumBy st.2 Summ.owed := by
  unfold payMap
  split
  · apply sumBy_updateEntry_of_proj
    intro s
    rfl
  · rfl

lemma sumBy_owed_owedFold (share : ℚ) (l : List String)
    (m : List (String × Summ)) (hnd : (keys m).Nodup) :
    sumBy (l.foldl (owedStep share) m) Summ.owed
      = sumBy m Summ.owed
        + ((l.countP fun c => decide (c ∈ keys m)) : ℚ) * share := by
  induction l generalizing m with
  | nil => simp
  | cons d l ih =>
    have hk : keys (owedStep share m d) = keys m := keys_owedStep share m d
    have hnd2 : (keys (owedStep share m d)).Nodup := by rw [hk]; exact hnd
    rw [List.foldl_cons, ih _ hnd2, List.countP_cons]
    simp only [hk]
    unfold owedStep
    by_cases h : d ∈ keys m
    · rw [if_pos h,
        sumBy_updateEntry_add _ _ share (fun _ => rfl) hnd h]
      have hd : (decide (d ∈ keys m)) = true := by simpa using h
      rw [hd, if_pos rfl]
      push_cast
      ring
    · rw [if_neg h]
      have hd : (decide (d ∈ keys m)) = false := by simpa using h
      rw [hd]
      norm_num

lemma sumBy_owed_owedPhase (e : Expense) (m : List (String × Summ))
    (hnd : (keys m).Nodup) (hne : e.splits ≠ [])
    (hmem : ∀ n ∈ e.splits, n ∈ keys m) :
    sumBy (owedPhase e m) Summ.owed = sumBy m Summ.owed + e.amount := by
  have hlen : 0 < e.splits.length := List.length_pos.mpr hne
  rw [owedPhase, if_pos hlen, sumBy_owed_owedFold _ _ _ hnd]
  have hcount : (e.splits.countP fun c => decide (c ∈ keys m))
      = e.splits.length := by
    rw [List.countP_eq_length]
    intro a ha
    simpa using hmem a ha
  rw [hcount]
  have hlq : ((e.splits.length : ℚ)) ≠ 0 := by
    exact_mod_cast Nat.pos_iff_ne_zero.mp hlen
  rw [mul_comm, div_mul_cancel₀ _ hlq]

lemma sumBy_owed_applyExpense (st : ℚ × List (String × Summ)) (e : Expense)
    (hnd : (keys st.2).Nodup) (hne : e.splits ≠ [])
    (hmem : ∀ n ∈ e.splits, n ∈ keys st.2) :
    sumBy (applyExpense st e).2 Summ.owed
      = sumBy st.2 Summ.owed + e.amount := by
  show sumBy (owedPhase e (payMap st e)) Summ.owed = _
  have hk : keys (payMap st e) = keys st.2 := keys_payMap st e
  rw [sumBy_owed_owedPhase e (payMap st e) (by rw [hk]; exact hnd) hne
      (by rw [hk]; exact hmem), sumBy_owed_payMap]

lemma foldl_applyExpense_sumOwed (es : List Expense)
    (st : ℚ × List (String × Summ)) (hnd : (keys st.2).Nodup)
    (hsp : ∀ e ∈ es, e.splits ≠ [] ∧ ∀ n ∈ e.splits, n ∈ keys st.2) :
    sumBy (es.foldl applyExpense st).2 Summ.owed
      = sumBy st.2 Summ.owed + totalAmount es := by
  induction es generalizing st with
  | nil => simp [totalAmount]
  | cons e es ih =>
    have h2 : keys (applyExpense st e).2 = keys st.2 :=
      keys_applyExpense st e
    have hnd2 : (keys (applyExpense st e).2).Nodup := by rw [h2]; exact hnd
    have he := hsp e (List.mem_cons_self e es)
    rw [List.foldl_cons, ih _ hnd2
        (fun x hx => by rw [h2]; exact hsp x (List.mem_cons_of_mem e hx)),
      sumBy_owed_applyExpense st e hnd he.1 he.2]
    simp only [totalAmount, List.map_cons, List.sum_cons]
    ring

end SumLemmas

section RoundingLemmas

lemma abs_roundHalfEven_sub (x : ℚ) :
    |(roundHalfEven x : ℚ) - x| ≤ 1/2 := by
  have hfl : (⌊x⌋ : ℚ) ≤ x := Int.floor_le x
  have hfu : x < (⌊x⌋ : ℚ) + 1 := Int.lt_floor_add_one x
  unfold roundHalfEven
  split
  case isTrue h1 =>
    rw [abs_sub_comm, abs_of_nonneg (sub_nonneg.mpr hfl)]
    linarith
  case isFalse h1 =>
    push_neg at h1
    split
    case isTrue h2 =>
      push_cast
      rw [abs_of_nonneg (by linarith)]
      linarith
    case isFalse h2 =>
      push_neg at h2
      have heq : x - (⌊x⌋ : ℚ) = 1/2 := le_antisymm h2 h1
      split
      · rw [abs_sub_comm, abs_of_nonneg (sub_nonneg.mpr hfl)]
        linarith
      · push_cast
        rw [abs_of_nonneg (by linarith)]
        linarith

lemma abs_round2_sub (x : ℚ) : |round2 x - x| ≤ 1/200 := by
  have h : round2 x - x = ((roundHalfEven (x * 100) : ℚ) - x * 100) / 100 := by
    rw [round2]
    ring
  rw [h, abs_div, abs_of_pos (by norm_num : (0:ℚ) < 100)]
  have := abs_roundHalfEven_sub (x * 100)
  linarith

lemma abs_sum_map_round2 (xs : List ℚ) :
    |(xs.map round2).sum - xs.sum| ≤ (xs.length : ℚ) * (1/200) := by
  induction xs with
  | nil => simp
  | cons x xs ih =>
    rw [List.map_cons, List.sum_cons, List.sum_cons, List.length_cons]
    have hx := abs_round2_sub x
    have htri : |round2 x + (xs.map round2).sum - (x + xs.sum)|
        ≤ |round2 x - x| + |(xs.map round2).sum - xs.sum| := by
      have : round2 x + (xs.map round2).sum - (x + xs.sum)
          = (round2 x - x) + ((xs.map round2).sum - xs.sum) := by ring
      rw [this]
      exact abs_add _ _
    push_cast
    calc |round2 x + (xs.map round2).sum - (x + xs.sum)|
        ≤ |round2 x - x| + |(xs.map round2).sum - xs.sum| := htri
      _ ≤ 1/200 + (xs.length : ℚ) * (1/200) := by
          exact add_le_add hx ih
      _ = ((xs.length : ℚ) + 1) * (1/200) := by ring

end RoundingLemmas

section FinalizeLemmas

lemma finalizeOne_eq (m : List (String × Summ)) (c : String) :
    finalizeOne m c = updateEntry m c roundSumm := rfl

lemma foldl_finalizeOne_cons (l : List String) (p : String × Summ)
    (m : List (String × Summ)) (h : p.1 ∉ l) :
    l.foldl finalizeOne (p :: m) = p :: l.foldl finalizeOne m := by
  induction l generalizing m with
  | nil => rfl
  | cons c l ih =>
    rw [List.mem_cons, not_or] at h
    rw [List.foldl_cons, List.foldl_cons, finalizeOne_eq, updateEntry_cons,
      if_neg h.1, ← finalizeOne_eq]
    exact ih _ h.2

lemma finalize_eq_map (m : List (String × Summ))
    (hnd : (keys m).Nodup) :
    (keys m).foldl finalizeOne m = m.map fun p => (p.1, roundSumm p.2) := by
  induction m with
  | nil => rfl
  | cons p m ih =>
    rw [keys_cons, List.nodup_cons] at hnd
    rw [keys_cons, List.foldl_cons, finalizeOne_eq, updateEntry_cons,
      if_pos rfl, updateEntry_of_not_mem _ hnd.1,
      foldl_finalizeOne_cons (keys m) (p.1, roundSumm p.2) m hnd.1,
      ih hnd.2, List.map_cons]

lemma settlement_snd_eq_map (companions : List String)
    (expenses : List Expense) (hnd : companions.Nodup) :
    (calculate_settlement companions expenses).2
      = ((rawSettlement companions expenses).2).map
          fun p => (p.1, roundSumm p.2) := by
  rw [calculate_settlement_snd]
  have hkeys : keys (rawSettlement companions expenses).2 = companions := by
    rw [keys_rawSettlement, List.dedup_eq_self.mpr hnd]
  obtain ⟨M, hM⟩ : ∃ M, (rawSettlement companions expenses).2 = M :=
    ⟨_, rfl⟩
  rw [hM] at hkeys ⊢
  rw [← hkeys]
  apply finalize_eq_map
  rw [hkeys]
  exact hnd

lemma lookupS_map_roundSumm (m : List (String × Summ)) (c : String) :
    lookupS (m.map fun p => (p.1, roundSumm p.2)) c
      = (lookupS m c).map roundSumm := by
  induction m with
  | nil => rfl
  | cons p m ih =>
    rw [List.map_cons, lookupS_cons, lookupS_cons]
    by_cases h : p.1 = c
    · rw [if_pos h, if_pos h]
      rfl
    · rw [if_neg h, if_neg h, ih]

lemma paidLookup_finalizeOne (m : List (String × Summ)) (k c : String) :
    paidLookup (finalizeOne m k) c
      = if c = k then (paidLookup m c).map round2 else paidLookup m c := by
  rw [finalizeOne_eq]
  by_cases h : c = k
  · subst h
    rw [if_pos rfl, paidLookup, lookupS_updateEntry_self, paidLookup]
    cases lookupS m c with
    | none => rfl
    | some s => rfl
  · rw [if_neg h, paidLookup, lookupS_updateEntry_ne _ _ h, paidLookup]

lemma owedLookup_finalizeOne (m : List (String × Summ)) (k c : String) :
    owedLookup (finalizeOne m k) c
      = if c = k then (owedLookup m c).map round2 else owedLookup m c := by
  rw [finalizeOne_eq]
  by_cases h : c = k
  · subst h
    rw [if_pos rfl, owedLookup, lookupS_updateEntry_self, owedLookup]
    cases lookupS m c with
    | none => rfl
    | some s => rfl
  · rw [if_neg h, owedLookup, lookupS_updateEntry_ne _ _ h, owedLookup]

lemma paidLookup_foldl_finalize_congr (l : List String)
    {m₁ m₂ : List (String × Summ)} (c : String)
    (h : paidLookup m₁ c = paidLookup m₂ c) :
    paidLookup (l.foldl finalizeOne m₁) c
      = paidLookup (l.foldl finalizeOne m₂) c := by
  induction l generalizing m₁ m₂ with
  | nil => exact h
  | cons k l ih =>
    rw [List.foldl_cons, List.foldl_cons]
    apply ih
    rw [paidLookup_finalizeOne, paidLookup_finalizeOne, h]

lemma owedLookup_foldl_finalize_congr (l : List String)
    {m₁ m₂ : List (String × Summ)} (c : String)
    (h : owedLookup m₁ c = owedLookup m₂ c) :
    owedLookup (l.foldl finalizeOne m₁) c
      = owedLookup (l.foldl finalizeOne m₂) c := by
  induction l generalizing m₁ m₂ with
  | nil => exact h
  | cons k l ih =>
    rw [List.foldl_cons, List.foldl_cons]
    apply ih
    rw [owedLookup_finalizeOne, owedLookup_finalizeOne, h]

lemma paidLookup_applyExpense (st : ℚ × List (String × Summ)) (e : Expense)
    (c : String) :
    paidLookup (applyExpense st e).2 c
      = (paidLookup st.2 c).map fun x =>
          x + (if e.payer = c then e.amount else 0) := by
  show paidLookup (owedPhase e (payMap st e)) c = _
  rw [paidLookup_owedPhase, payMap]
  by_cases hk : e.payer ∈ keys st.2
  · rw [if_pos hk]
    by_cases hc : e.payer = c
    · subst hc
      rw [paidLookup, lookupS_updateEntry_self, paidLookup]
      cases lookupS st.2 e.payer with
      | none => rfl
      | some s => simp
    · rw [paidLookup,
        lookupS_updateEntry_ne _ _ (fun hce => hc hce.symm), paidLookup]
      cases lookupS st.2 c with
      | none => rfl
      | some s => simp [hc]
  · rw [if_neg hk]
    by_cases hc : e.payer = c
    · subst hc
      rw [paidLookup, lookupS_eq_none_of_not_mem hk]
      rfl
    · cases hl : paidLookup st.2 c with
      | none => rfl
      | some x => simp [hc]

lemma paidLookup_foldl_applyExpense_congr (es : List Expense)
    {s₁ s₂ : ℚ × List (String × Summ)} (c : String)
    (h : paidLookup s₁.2 c = paidLookup s₂.2 c) :
    paidLookup (es.foldl applyExpense s₁).2 c
      = paidLookup (es.foldl applyExpense s₂).2 c := by
  induction es generalizing s₁ s₂ with
  | nil => exact h
  | cons e es ih =>
    rw [List.foldl_cons, List.foldl_cons]
    apply ih
    rw [paidLookup_applyExpense, paidLookup_applyExpense, h]

lemma owedLookup_foldl_applyExpense_congr (es : List Expense)
    {s₁ s₂ : ℚ × List (String × Summ)} (c : String)
    (h : owedLookup s₁.2 c = owedLookup s₂.2 c) :
    owedLookup (es.foldl applyExpense s₁).2 c
      = owedLookup (es.foldl applyExpense s₂).2 c := by
  induction es generalizing s₁ s₂ with
  | nil => exact h
  | cons e es ih =>
    rw [List.foldl_cons, List.foldl_cons]
    apply ih
    rw [owedLookup_applyExpense, owedLookup_applyExpense, h]

end FinalizeLemmas

section EngineSums

lemma sumBy_initSummary (companions : List String) (f : Summ → ℚ)
    (hf : f ⟨0, 0, 0⟩ = 0) : sumBy (initSummary companions) f = 0 := by
  rw [initSummary]
  induction companions.dedup with
  | nil => rfl
  | cons c l ih => rw [List.map_cons, sumBy_cons, ih, hf, add_zero]

lemma filter_payer_dedup (companions : List String)
    (expenses : List Expense) :
    (expenses.filter fun e => decide (e.payer ∈ companions.dedup))
      = expenses.filter fun e => decide (e.payer ∈ companions) := by
  apply List.filter_congr
  intro e _
  simp [List.mem_dedup]

lemma raw_fst (companions : List String) (expenses : List Expense) :
    (rawSettlement companions expenses).1
      = rosterAmount companions expenses := by
  rw [rawSettlement, foldl_applyExpense_fst]
  simp only [keys_initSummary]
  rw [filter_payer_dedup, zero_add, rosterAmount]

lemma raw_sumPaid (companions : List String) (expenses : List Expense) :
    sumBy (rawSettlement companions expenses).2 Summ.paid
      = rosterAmount companions expenses := by
  rw [rawSettlement,
    foldl_applyExpense_sumPaid _ _ (nodup_keys_initSummary companions)]
  simp only [keys_initSummary]
  rw [filter_payer_dedup, sumBy_initSummary _ _ rfl, zero_add, rosterAmount]

lemma raw_sumOwed (companions : List String) (expenses : List Expense)
    (hsp : ∀ e ∈ expenses,
      e.splits ≠ [] ∧ ∀ n ∈ e.splits, n ∈ companions) :
    sumBy (rawSettlement companions expenses).2 Summ.owed
      = totalAmount expenses := by
  rw [rawSettlement,
    foldl_applyExpense_sumOwed _ _ (nodup_keys_initSummary companions)
      (by
        intro e he
        refine ⟨(hsp e he).1, fun n hn => ?_⟩
        rw [keys_initSummary, List.mem_dedup]
        exact (hsp e he).2 n hn),
    sumBy_initSummary _ _ rfl, zero_add]

lemma sumBy_map_roundSumm (m : List (String × Summ)) (f g : Summ → ℚ)
    (hfg : ∀ s, f (roundSumm s) = round2 (g s)) :
    sumBy (m.map fun p => (p.1, roundSumm p.2)) f
      = ((m.map fun p => g p.2).map round2).sum := by
  simp only [sumBy, List.map_map]
  congr 1
  apply List.map_congr_left
  intro p _
  exact hfg p.2

lemma sum_map_paid_sub_owed (m : List (String × Summ)) :
    (m.map fun p => p.2.paid - p.2.owed).sum
      = sumBy m Summ.paid - sumBy m Summ.owed := by
  induction m with
  | nil => simp [sumBy]
  | cons p m ih =>
    rw [List.map_cons, List.sum_cons, ih, sumBy_cons, sumBy_cons]
    ring

lemma raw_length (companions : List String) (expenses : List Expense) :
    ((rawSettlement companions expenses).2).length
      = companions.dedup.length := by
  have h := keys_rawSettlement companions expenses
  have h2 : (keys (rawSettlement companions expenses).2).length
      = ((rawSettlement companions expenses).2).length := by
    rw [keys, List.length_map]
  rw [← h2, h]

end EngineSums

/-- Claim C1, counterexample: with roster ["A"] and a single record paid by
the unknown payer "Ghost", the returned grand total is 0, not the sum 5 of
all amount fields — total_paid_all is incremented only when the payer is a
key of the summary (app.py lines 179-181), so the claim as stated is
false. -/
theorem c1_counterexample :
    (calculate_settlement ["A"] [⟨"Ghost", 5, ["A"]⟩]).1
      ≠ totalAmount [⟨"Ghost", 5, ["A"]⟩] := by
  have h1 : (calculate_settlement ["A"] [⟨"Ghost", 5, ["A"]⟩]).1 = 0 := by
    decide
  have h2 : totalAmount [⟨"Ghost", 5, ["A"]⟩] = 5 := by
    norm_num [totalAmount]
  rw [h1, h2]
  norm_num

/-- Claim C1, amended: for every companion roster and every expense list,
the grand total returned by calculate_settlement equals the exact sum of
the amount fields of those expense records whose payer is a member of the
roster. -/
theorem c1_grand_total (companions : List String)
    (expenses : List Expense) :
    (calculate_settlement companions expenses).1
      = rosterAmount companions expenses := by
  rw [calculate_settlement_fst, raw_fst]

/-- Claim C4, counterexample: a record whose payer "Ghost" is not in the
roster contributes nothing to the returned grand total (which stays 0),
instead of contributing its amount 7 as the claim states. -/
theorem c4_counterexample :
    (calculate_settlement ["A", "B"] [⟨"Ghost", 7, ["A", "B"]⟩]).1 = 0
    ∧ (0 : ℚ) ≠ totalAmount [⟨"Ghost", 7, ["A", "B"]⟩] := by
  constructor
  · decide
  · have h2 : totalAmount [⟨"Ghost", 7, ["A", "B"]⟩] = 7 := by
      norm_num [totalAmount]
    rw [h2]
    norm_num

/-- Claim C4, amended: a record whose payer is not in the roster never
makes the engine fail, and wherever it occurs in the expense list it
leaves the returned grand total unchanged (so its amount does not
contribute to it) and leaves every companion's returned paid value
unchanged. -/
theorem c4_unknown_payer (companions : List String)
    (es₁ es₂ : List Expense) (e : Expense) (c : String)
    (h : e.payer ∉ companions) :
    (calculate_settlement companions (es₁ ++ e :: es₂)).1
      = (calculate_settlement companions (es₁ ++ es₂)).1
    ∧ paidLookup (calculate_settlement companions (es₁ ++ e :: es₂)).2 c
      = paidLookup (calculate_settlement companions (es₁ ++ es₂)).2 c := by
  have hkeys :
      e.payer ∉ keys (List.foldl applyExpense
        (0, initSummary companions) es₁).2 := by
    rw [keys_foldl_applyExpense, keys_initSummary, List.mem_dedup]
    exact h
  constructor
  · rw [calculate_settlement_fst, calculate_settlement_fst, rawSettlement,
      rawSettlement, List.foldl_append, List.foldl_append, List.foldl_cons,
      foldl_applyExpense_fst, foldl_applyExpense_fst]
    simp only [keys_applyExpense]
    have h1 : (applyExpense (List.foldl applyExpense
        (0, initSummary companions) es₁) e).1
          = (List.foldl applyExpense (0, initSummary companions) es₁).1 := by
      show payTotal (List.foldl applyExpense
        (0, initSummary companions) es₁) e = _
      rw [payTotal, if_neg hkeys]
    rw [h1]
  · rw [calculate_settlement_snd, calculate_settlement_snd]
    apply paidLookup_foldl_finalize_congr
    rw [rawSettlement, rawSettlement, List.foldl_append, List.foldl_append,
      List.foldl_cons]
    apply paidLookup_foldl_applyExpense_congr
    show paidLookup (owedPhase e (payMap (List.foldl applyExpense
        (0, initSummary companions) es₁) e)) c = _
    rw [paidLookup_owedPhase, payMap, if_neg hkeys]

/-- Witness for c4_unknown_payer at a concrete input, with the
unknown-payer record in the middle of the list. -/
theorem c4_unknown_payer_witness :
    (calculate_settlement ["A"]
        ([⟨"A", 2, ["A"]⟩] ++ ⟨"Ghost", 7, []⟩ :: [⟨"A", 4, ["A"]⟩])).1
      = (calculate_settlement ["A"]
          ([⟨"A", 2, ["A"]⟩] ++ [⟨"A", 4, ["A"]⟩])).1
    ∧ paidLookup (calculate_settlement ["A"]
        ([⟨"A", 2, ["A"]⟩] ++ ⟨"Ghost", 7, []⟩ :: [⟨"A", 4, ["A"]⟩])).2 "A"
      = paidLookup (calculate_settlement ["A"]
          ([⟨"A", 2, ["A"]⟩] ++ [⟨"A", 4, ["A"]⟩])).2 "A" :=
  c4_unknown_payer ["A"] [⟨"A", 2, ["A"]⟩] [⟨"A", 4, ["A"]⟩]
    ⟨"Ghost", 7, []⟩ "A" (by decide)

/-- Claim C5: a record whose splits list is empty is processed without
error (the guard on the split count skips the division), and wherever it
occurs in the expense list it contributes zero to every companion's
returned owed value. -/
theorem c5_empty_splits (companions : List String) (es₁ es₂ : List Expense)
    (e : Expense) (c : String) (h : e.splits = []) :
    owedLookup (calculate_settlement companions (es₁ ++ e :: es₂)).2 c
      = owedLookup (calculate_settlement companions (es₁ ++ es₂)).2 c := by
  rw [calculate_settlement_snd, calculate_settlement_snd]
  apply owedLookup_foldl_finalize_congr
  rw [rawSettlement, rawSettlement, List.foldl_append, List.foldl_append,
    List.foldl_cons]
  apply owedLookup_foldl_applyExpense_congr
  rw [owedLookup_applyExpense]
  have hd : owedDelta e c = 0 := by
    rw [owedDelta, h]
    norm_num
  rw [hd]
  cases owedLookup
      (List.foldl applyExpense (0, initSummary companions) es₁).2 c <;> simp

/-- Witness for c5_empty_splits at a concrete input. -/
theorem c5_empty_splits_witness :
    owedLookup (calculate_settlement ["A"]
        ([] ++ ⟨"A", 9, []⟩ :: [⟨"A", 4, ["A"]⟩])).2 "A"
      = owedLookup (calculate_settlement ["A"] ([] ++ [⟨"A", 4, ["A"]⟩])).2
          "A" :=
  c5_empty_splits ["A"] [] [⟨"A", 4, ["A"]⟩] ⟨"A", 9, []⟩ "A" rfl

/-- Claim C7: the settlement engine on an empty roster and an empty
expense list returns grand total 0 and the empty summary, with no
error. -/
theorem c7_empty : calculate_settlement [] [] = (0, []) := by decide

/-- Claim C8: calculate_settlement is a pure function of its two
arguments — two invocations with identical companion and expense inputs
return identical grand totals and identical summaries. -/
theorem c8_deterministic (cs₁ cs₂ : List String) (es₁ es₂ : List Expense)
    (hc : cs₁ = cs₂) (he : es₁ = es₂) :
    calculate_settlement cs₁ es₁ = calculate_settlement cs₂ es₂ := by
  rw [hc, he]

/-- Witness for c8_deterministic at a concrete input. -/
theorem c8_deterministic_witness :
    calculate_settlement ["A"] [⟨"A", 3, ["A"]⟩]
      = calculate_settlement ["A"] [⟨"A", 3, ["A"]⟩] :=
  c8_deterministic ["A"] ["A"] [⟨"A", 3, ["A"]⟩] [⟨"A", 3, ["A"]⟩] rfl rfl

/-- Claim C9: the returned grand total equals the sum over the summary
entries of the unrounded accumulated paid values, and both equal the sum
of the amount fields of exactly those records whose payer is a member of
the roster. -/
theorem c9_grand_total_paid (companions : List String)
    (expenses : List Expense) :
    (calculate_settlement companions expenses).1
      = sumBy (rawSettlement companions expenses).2 Summ.paid
    ∧ (calculate_settlement companions expenses).1
      = rosterAmount companions expenses := by
  constructor
  · rw [calculate_settlement_fst, raw_fst, raw_sumPaid]
  · rw [calculate_settlement_fst, raw_fst]

/-- Claim C10: for a record with a non-empty splits list, the per-person
share is the amount divided by the full length of the splits list
(duplicates and non-roster names included), and a companion present in
the summary who occurs k times in the splits receives k shares on their
owed value. -/
theorem c10_share (t : ℚ) (m : List (String × Summ)) (e : Expense)
    (c : String) (h : e.splits ≠ []) :
    owedLookup (applyExpense (t, m) e).2 c
      = (owedLookup m c).map fun x =>
          x + (e.splits.count c : ℚ)
            * (e.amount / (e.splits.length : ℚ)) := by
  rw [owedLookup_applyExpense]
  have hd : owedDelta e c
      = (e.splits.count c : ℚ) * (e.amount / (e.splits.length : ℚ)) := by
    rw [owedDelta, if_pos (List.length_pos.mpr h)]
  simp only [hd]

/-- Claim C2, counterexample: the runtime rounding primitive is
round-half-to-even, not standard half-up: on the record amount 0.125 the
returned paid value is round2 (1/8) = 0.12, while half-up rounding of the
same value gives 0.13. -/
theorem c2_counterexample :
    paidLookup (calculate_settlement ["A"] [⟨"A", 1/8, ["A"]⟩]).2 "A"
      = some (round2 (1/8))
    ∧ round2 ((1 : ℚ)/8) ≠ roundUp2 ((1 : ℚ)/8) := by
  have hs : lookupS (rawSettlement ["A"] [⟨"A", 1/8, ["A"]⟩]).2 "A"
      = some ⟨1/8, 1/8, 0⟩ := by
    norm_num [rawSettlement, applyExpense, payMap, payTotal, owedPhase,
      owedStep, initSummary, updateEntry, keys, lookupS, List.dedup,
      List.pwFilter, List.find?]
  constructor
  · rw [paidLookup, settlement_snd_eq_map _ _ (by decide),
      lookupS_map_roundSumm, hs]
    rfl
  · norm_num [round2, roundUp2, roundHalfEven, roundHalfUp]

/-- Claim C2, amended: for a duplicate-free roster, each companion's
returned record is obtained from the full-precision accumulated paid and
owed by computing net as paid minus owed and rounding paid, owed and net
independently to 2 decimal places with round-half-to-even rounding. -/
theorem c2_rounding (companions : List String) (expenses : List Expense)
    (c : String) (s : Summ) (hnd : companions.Nodup)
    (hs : lookupS (rawSettlement companions expenses).2 c = some s) :
    lookupS (calculate_settlement companions expenses).2 c
      = some ⟨round2 s.paid, round2 s.owed, round2 (s.paid - s.owed)⟩ := by
  rw [settlement_snd_eq_map _ _ hnd, lookupS_map_roundSumm, hs]
  rfl

/-- Witness for c2_rounding at a concrete input. -/
theorem c2_rounding_witness :
    lookupS (calculate_settlement ["A"] [⟨"A", 10, ["A"]⟩]).2 "A"
      = some ⟨round2 10, round2 10, round2 (10 - 10)⟩ :=
  c2_rounding ["A"] [⟨"A", 10, ["A"]⟩] "A" ⟨10, 10, 0⟩ (by decide)
    (by norm_num [rawSettlement, applyExpense, payMap, payTotal, owedPhase,
      owedStep, initSummary, updateEntry, keys, lookupS, List.dedup,
      List.pwFilter, List.find?])

/-- Claim C3, counterexample: with roster ["A"] and the single record
(payer "A", amount 1000, empty splits) the membership hypotheses of the
claim hold vacuously, yet the sum of returned net values is 1000, far
outside the tolerance 0.01 times the roster size — conservation fails for
records with an empty splits list. -/
theorem c3_counterexample :
    (∀ e ∈ ([⟨"A", 1000, []⟩] : List Expense),
        e.payer ∈ (["A"] : List String)
          ∧ ∀ n ∈ e.splits, n ∈ (["A"] : List String))
    ∧ ¬ |netSum (calculate_settlement ["A"] [⟨"A", 1000, []⟩]).2|
        ≤ (((["A"] : List String).length : ℚ)) * (1/100) := by
  constructor
  · decide
  · have h : netSum (calculate_settlement ["A"] [⟨"A", 1000, []⟩]).2
        = 1000 := by
      norm_num [netSum, sumBy, calculate_settlement, rawSettlement,
        applyExpense, payMap, payTotal, owedPhase, owedStep, initSummary,
        updateEntry, keys, finalizeOne, round2, roundHalfEven, List.dedup,
        List.pwFilter]
    rw [h]
    norm_num

/-- Claim C3, amended: for a duplicate-free roster, if every record's
payer is in the roster, every record has a non-empty splits list, and
every split member is in the roster, then the sum of the returned rounded
net values stays within 0.01 times the roster size of zero. -/
theorem c3_conservation (companions : List String) (expenses : List Expense)
    (hnd : companions.Nodup)
    (hsp : ∀ e ∈ expenses, e.payer ∈ companions ∧ e.splits ≠ []
        ∧ ∀ n ∈ e.splits, n ∈ companions) :
    |netSum (calculate_settlement companions expenses).2|
      ≤ (companions.length : ℚ) * (1/100) := by
  have hnet : netSum (calculate_settlement companions expenses).2
      = (((rawSettlement companions expenses).2.map
          fun p => p.2.paid - p.2.owed).map round2).sum := by
    rw [netSum, settlement_snd_eq_map _ _ hnd,
      sumBy_map_roundSumm _ Summ.net (fun s => s.paid - s.owed)
        (fun s => rfl)]
  have hzero : ((rawSettlement companions expenses).2.map
      fun p => p.2.paid - p.2.owed).sum = 0 := by
    rw [sum_map_paid_sub_owed]
    have hfil : expenses.filter (fun e => decide (e.payer ∈ companions))
        = expenses :=
      List.filter_eq_self.mpr (fun e he => by simp [(hsp e he).1])
    have hpaid : sumBy (rawSettlement companions expenses).2 Summ.paid
        = totalAmount expenses := by
      rw [raw_sumPaid, rosterAmount, hfil, totalAmount]
    have howed : sumBy (rawSettlement companions expenses).2 Summ.owed
        = totalAmount expenses :=
      raw_sumOwed companions expenses
        (fun e he => ⟨(hsp e he).2.1, (hsp e he).2.2⟩)
    rw [hpaid, howed, sub_self]
  have hlen : ((rawSettlement companions expenses).2.map
      fun p => p.2.paid - p.2.owed).length = companions.length := by
    rw [List.length_map, raw_length, List.dedup_eq_self.mpr hnd]
  have h := abs_sum_map_round2
    ((rawSettlement companions expenses).2.map fun p => p.2.paid - p.2.owed)
  rw [hzero, hlen, sub_zero] at h
  rw [hnet]
  refine le_trans h ?_
  exact mul_le_mul_of_nonneg_left (by norm_num) (Nat.cast_nonneg _)

/-- Witness for c3_conservation at a concrete input. -/
theorem c3_conservation_witness :
    |netSum (calculate_settlement ["A", "B"] [⟨"A", 10, ["A", "B"]⟩]).2|
      ≤ (((["A", "B"] : List String).length : ℚ)) * (1/100) :=
  c3_conservation ["A", "B"] [⟨"A", 10, ["A", "B"]⟩] (by decide) (by decide)

/-- Claim C6: for a duplicate-free roster, the sum over all companions of
the returned rounded paid values differs from the sum of the amounts of
the records whose payer is in the roster by at most one half-unit of the
final 2-decimal rounding per companion. -/
theorem c6_paid_total (companions : List String) (expenses : List Expense)
    (hnd : companions.Nodup) :
    |sumBy (calculate_settlement companions expenses).2 Summ.paid
        - rosterAmount companions expenses|
      ≤ (companions.length : ℚ) * (1/200) := by
  rw [settlement_snd_eq_map _ _ hnd,
    sumBy_map_roundSumm _ Summ.paid (fun s => s.paid) (fun s => rfl)]
  have hsum : ((rawSettlement companions expenses).2.map
      fun p => p.2.paid).sum = rosterAmount companions expenses :=
    raw_sumPaid companions expenses
  have hlen : ((rawSettlement companions expenses).2.map
      fun p => p.2.paid).length = companions.length := by
    rw [List.length_map, raw_length, List.dedup_eq_self.mpr hnd]
  have h := abs_sum_map_round2
    ((rawSettlement companions expenses).2.map fun p => p.2.paid)
  rw [hsum, hlen] at h
  exact h

/-- Witness for c6_paid_total at a concrete input. -/
theorem c6_paid_total_witness :
    |sumBy (calculate_settlement ["A"] ([] : List Expense)).2 Summ.paid
        - rosterAmount ["A"] []|
      ≤ (((["A"] : List String).length : ℚ)) * (1/200) :=
  c6_paid_total ["A"] [] (by decide)

/-- Witness for c10_share at a concrete input. -/
theorem c10_share_witness :
    owedLookup (applyExpense (0, [("A", (⟨0, 0, 0⟩ : Summ))])
        ⟨"B", 9, ["A", "A", "Ghost"]⟩).2 "A"
      = (owedLookup [("A", (⟨0, 0, 0⟩ : Summ))] "A").map fun x =>
          x + (((["A", "A", "Ghost"] : List String).count "A" : ℚ))
            * ((9 : ℚ) / (((["A", "A", "Ghost"] : List String).length : ℚ))) :=
  c10_share 0 [("A", ⟨0, 0, 0⟩)] ⟨"B", 9, ["A", "A", "Ghost"]⟩ "A"
    (by decide)
